import Mathlib

/-!
# Verification of the EncryptDemo encryption request pipeline

Shallow embedding of `src/web/app.js` (client-side text-encryption tool):
`InputValidator.validate` / `InputValidator.sanitize`,
`OutputFormatter.formatOutput` (base64 packing of IV ‖ ciphertext ‖ tag),
`MemoryManager.clearSensitiveData`, and the orchestrator
`EncryptionController.processEncryption`.

Strings handled by the validator are modelled as lists of character codes
(`List Nat`); user-facing messages are Lean `String`s. The browser's
cryptographic provider (`window.crypto`) is an external collaborator and is
modelled as an oracle record; `btoa` is modelled by an explicit base64
encoder over byte lists.
-/

/-- The control-character set rejected and stripped by the validator:
the regex `[\x00-\x08\x0B\x0C\x0E-\x1F\x7F]` of `app.js`. -/
def isDangerousChar (c : Nat) : Bool :=
  decide (c ≤ 0x08) || decide (c = 0x0B) || decide (c = 0x0C) ||
  (decide (0x0E ≤ c) && decide (c ≤ 0x1F)) || decide (c = 0x7F)

/-- ECMAScript `String.prototype.trim` whitespace: WhiteSpace ∪ LineTerminator
(tab, LF, VT, FF, CR, space, NBSP, Unicode space separators, LS, PS, ZWNBSP). -/
def isJsWhitespace (c : Nat) : Bool :=
  (decide (0x09 ≤ c) && decide (c ≤ 0x0D)) || decide (c = 0x20) ||
  decide (c = 0xA0) || decide (c = 0x1680) ||
  (decide (0x2000 ≤ c) && decide (c ≤ 0x200A)) ||
  decide (c = 0x2028) || decide (c = 0x2029) || decide (c = 0x202F) ||
  decide (c = 0x205F) || decide (c = 0x3000) || decide (c = 0xFEFF)

/-- `l.trim()`: drop leading and trailing JS whitespace. -/
def jsTrim (l : List Nat) : List Nat :=
  ((l.dropWhile isJsWhitespace).reverse.dropWhile isJsWhitespace).reverse

/-- `.replace(/[\x00-\x08\x0B\x0C\x0E-\x1F\x7F]/g, '')`: remove the control
characters. -/
def stripControl (l : List Nat) : List Nat :=
  l.filter (fun c => !isDangerousChar c)

/-- A global single-character replacement `.replace(/target/g, repl)`. -/
def replaceChar (target : Nat) (repl : List Nat) : List Nat → List Nat
  | [] => []
  | c :: rest => (if c = target then repl else [c]) ++ replaceChar target repl rest

/-- `InputValidator.sanitize` (app.js lines 72–81): trim, strip control
characters, then HTML-entity-escape `& < > " '` in that order
(`&amp; &lt; &gt; &quot; &#x27;`). -/
def sanitize (input : List Nat) : List Nat :=
  replaceChar 39 [38, 35, 120, 50, 55, 59]
    (replaceChar 34 [38, 113, 117, 111, 116, 59]
      (replaceChar 62 [38, 103, 116, 59]
        (replaceChar 60 [38, 108, 116, 59]
          (replaceChar 38 [38, 97, 109, 112, 59]
            (stripControl (jsTrim input))))))

/-- The record returned by `InputValidator.validate`. -/
structure ValidationResult where
  isValid : Bool
  errors : List String
  sanitized : List Nat
deriving DecidableEq, Repr

/-- `InputValidator.validate` (app.js lines 43–65): collects error reasons in
check order (empty → too long → control characters), is valid iff no reasons,
and always computes the sanitized text. -/
def validate (input : List Nat) : ValidationResult :=
  let errors : List String :=
    (if input.length = 0 then ["Input cannot be empty"] else []) ++
    (if input.length > 10000 then
      ["Input too long: " ++ toString input.length ++ "/10000 characters"]
     else []) ++
    (if input.any isDangerousChar then
      ["Input contains invalid control characters"] else [])
  { isValid := errors.isEmpty
    errors := errors
    sanitized := sanitize input }

/-- `needle` is an initial segment of `hay` (character lists). -/
def leadMatch : List Char → List Char → Bool
  | [], _ => true
  | _ :: _, [] => false
  | a :: as, b :: bs => decide (a = b) && leadMatch as bs

/-- `needle` occurs contiguously somewhere inside `hay`. -/
def hasSub (needle : List Char) : List Char → Bool
  | [] => leadMatch needle []
  | c :: rest => leadMatch needle (c :: rest) || hasSub needle rest

/-- Character codes of a Lean string, for concrete test inputs. -/
def codes (s : String) : List Nat :=
  s.toList.map Char.toNat

/-- Validity is equivalent to: nonempty, at most 10000 characters, and no
dangerous control character. -/
theorem validate_isValid_iff (l : List Nat) :
    (validate l).isValid = true ↔
      1 ≤ l.length ∧ l.length ≤ 10000 ∧ ∀ c ∈ l, isDangerousChar c = false := by
  by_cases h0 : l.length = 0
  · have hnil : l = [] := List.length_eq_zero.1 h0
    subst hnil
    decide
  · by_cases h1 : l.length > 10000
    · have hnle : ¬ l.length ≤ 10000 := by omega
      simp [validate, h0, h1, hnle]
    · by_cases h2 : l.any isDangerousChar = true
      · obtain ⟨c, hc, hbad⟩ := List.any_eq_true.1 h2
        have hnall : ¬ ∀ c ∈ l, isDangerousChar c = false := by
          intro hall
          rw [hall c hc] at hbad
          cases hbad
        simp [validate, h0, h1, h2, hnall]
      · constructor
        · intro _
          refine ⟨by omega, by omega, ?_⟩
          intro c hc
          by_contra hb
          exact h2 (List.any_eq_true.2 ⟨c, hc, by simpa using hb⟩)
        · intro _
          simp [validate, h0, h1, h2]

/-- C3 helper: on the empty input the single reason is the "empty" message. -/
theorem validate_nil_errors : (validate []).errors = ["Input cannot be empty"] := by
  decide

/-- C3: For every string, `validate` accepts iff the length is in [1,10000] and no
control character from {0x00–0x08, 0x0B, 0x0C, 0x0E–0x1F, 0x7F} occurs; at
length 0 an error mentions "empty", and at length 10001 an error cites
"10001/10000". -/
theorem validate_characterisation (l : List Nat) :
    ((validate l).isValid = true ↔
        1 ≤ l.length ∧ l.length ≤ 10000 ∧ ∀ c ∈ l, isDangerousChar c = false) ∧
    (l.length = 0 →
        ∃ m ∈ (validate l).errors, hasSub "empty".toList m.toList = true) ∧
    (l.length = 10001 →
        ∃ m ∈ (validate l).errors, hasSub "10001/10000".toList m.toList = true) := by
  refine ⟨validate_isValid_iff l, ?_, ?_⟩
  · intro h
    have hnil : l = [] := List.length_eq_zero.1 h
    subst hnil
    exact ⟨"Input cannot be empty", by rw [validate_nil_errors]; simp, by decide⟩
  · intro h
    refine ⟨"Input too long: " ++ toString l.length ++ "/10000 characters", ?_, ?_⟩
    · have hne : l.length ≠ 0 := by omega
      have hgt : l.length > 10000 := by omega
      simp [validate, hne, hgt]
    · rw [h]; decide

/-- Witness for C3: the empty input carries an error mentioning "empty". -/
theorem validate_characterisation_witness :
    ∃ m ∈ (validate []).errors, hasSub "empty".toList m.toList = true :=
  (validate_characterisation []).2.1 rfl

/-- The sanitization written as the specification describes it: trim, strip the
control-character set, then escape `&`, `<`, `>`, `"`, `'` with their HTML
entities in that left-to-right order. -/
def sanitizeSpec (input : List Nat) : List Nat :=
  let step0 := stripControl (jsTrim input)
  let step1 := replaceChar 38 (codes "&amp;") step0
  let step2 := replaceChar 60 (codes "&lt;") step1
  let step3 := replaceChar 62 (codes "&gt;") step2
  let step4 := replaceChar 34 (codes "&quot;") step3
  replaceChar 39 (codes "&#x27;") step4

/-- C4: The normalized text returned by `validate` (on every outcome, valid or
not) is exactly: trim, remove the control characters, then escape
`& < > " '` in that order; the script-tag example escapes as specified. -/
theorem sanitized_eq_spec (l : List Nat) :
    (validate l).sanitized = sanitizeSpec l ∧
    sanitize (codes "<script>alert(1)</script>") =
      codes "&lt;script&gt;alert(1)&lt;/script&gt;" := by
  constructor
  · rfl
  · decide

/-- The base64 alphabet map on sextets (`A–Z a–z 0–9 + /`), as character
codes; models the alphabet used by `btoa`. -/
def b64enc (s : Nat) : Nat :=
  if s < 26 then 65 + s
  else if s < 52 then 71 + s
  else if s < 62 then s - 4
  else if s = 62 then 43
  else 47

/-- Inverse of the base64 alphabet map (0 on characters outside the
alphabet); models the table used by standard base64 decoding (`atob`). -/
def b64dec (c : Nat) : Nat :=
  if 65 ≤ c ∧ c ≤ 90 then c - 65
  else if 97 ≤ c ∧ c ≤ 122 then c - 71
  else if 48 ≤ c ∧ c ≤ 57 then c + 4
  else if c = 43 then 62
  else if c = 47 then 63
  else 0

/-- On sextets the alphabet map is inverted by its table and never produces
the padding character `'='` (code 61). -/
theorem b64_alphabet_sound :
    ∀ s : Fin 64, b64dec (b64enc s.val) = s.val ∧ b64enc s.val ≠ 61 := by
  decide

theorem b64dec_enc (s : Nat) (h : s < 64) : b64dec (b64enc s) = s :=
  (b64_alphabet_sound ⟨s, h⟩).1

theorem b64enc_ne_pad (s : Nat) (h : s < 64) : b64enc s ≠ 61 :=
  (b64_alphabet_sound ⟨s, h⟩).2

/-- `btoa` over a byte list: three bytes become four alphabet characters,
with `'='` (code 61) padding for a 1- or 2-byte tail (RFC 4648, no line
wraps). -/
def b64encode : List Nat → List Nat
  | [] => []
  | [a] => [b64enc (a / 4), b64enc (a % 4 * 16), 61, 61]
  | [a, b] => [b64enc (a / 4), b64enc (a % 4 * 16 + b / 16), b64enc (b % 16 * 4), 61]
  | a :: b :: c :: rest =>
      b64enc (a / 4) :: b64enc (a % 4 * 16 + b / 16) ::
      b64enc (b % 16 * 4 + c / 64) :: b64enc (c % 64) :: b64encode rest

/-- Standard base64 decoding over character codes (`atob`): each group of
four characters yields three bytes, or fewer at a padded tail. -/
def b64decode : List Nat → List Nat
  | a :: b :: c :: d :: rest =>
      if c = 61 then [b64dec a * 4 + b64dec b / 16]
      else if d = 61 then
        [b64dec a * 4 + b64dec b / 16, b64dec b % 16 * 16 + b64dec c / 4]
      else
        (b64dec a * 4 + b64dec b / 16) ::
        (b64dec b % 16 * 16 + b64dec c / 4) ::
        (b64dec c % 4 * 64 + b64dec d) :: b64decode rest
  | _ => []

/-- Base64 decoding inverts the encoder on every byte list. -/
theorem b64decode_encode (l : List Nat) (h : ∀ x ∈ l, x < 256) :
    b64decode (b64encode l) = l := by
  induction l using b64encode.induct with
  | case1 => rfl
  | case2 a =>
      have ha : a < 256 := h a (by simp)
      have e1 := b64dec_enc (a / 4) (by omega)
      have e2 := b64dec_enc (a % 4 * 16) (by omega)
      have k1 : a / 4 * 4 + a % 4 * 16 / 16 = a := by omega
      simp [b64encode, b64decode, e1, e2, k1]
      omega
  | case3 a b =>
      have ha : a < 256 := h a (by simp)
      have hb : b < 256 := h b (by simp)
      have e1 := b64dec_enc (a / 4) (by omega)
      have e2 := b64dec_enc (a % 4 * 16 + b / 16) (by omega)
      have e3 := b64dec_enc (b % 16 * 4) (by omega)
      have ne3 := b64enc_ne_pad (b % 16 * 4) (by omega)
      have k1 : a / 4 * 4 + (a % 4 * 16 + b / 16) / 16 = a := by omega
      have k2 : (a % 4 * 16 + b / 16) % 16 * 16 + b % 16 * 4 / 4 = b := by omega
      simp [b64encode, b64decode, ne3, e1, e2, e3, k1, k2]
      omega
  | case4 a b c rest ih =>
      have ha : a < 256 := h a (by simp)
      have hb : b < 256 := h b (by simp)
      have hc : c < 256 := h c (by simp)
      have hrest : ∀ x ∈ rest, x < 256 := fun x hx => h x (by simp [hx])
      have e1 := b64dec_enc (a / 4) (by omega)
      have e2 := b64dec_enc (a % 4 * 16 + b / 16) (by omega)
      have e3 := b64dec_enc (b % 16 * 4 + c / 64) (by omega)
      have e4 := b64dec_enc (c % 64) (by omega)
      have ne3 := b64enc_ne_pad (b % 16 * 4 + c / 64) (by omega)
      have ne4 := b64enc_ne_pad (c % 64) (by omega)
      have k1 : a / 4 * 4 + (a % 4 * 16 + b / 16) / 16 = a := by omega
      have k2 : (a % 4 * 16 + b / 16) % 16 * 16 + (b % 16 * 4 + c / 64) / 4 = b := by omega
      have k3 : (b % 16 * 4 + c / 64) % 4 * 64 + c % 64 = c := by omega
      simp [b64encode, b64decode, ne3, ne4, e1, e2, e3, e4, k1, k2, k3, ih hrest]

/-- `OutputFormatter.formatOutput` (app.js lines 161–173): concatenate the
12-byte IV with the WebCrypto output buffer (ciphertext with the 16-byte GCM
tag appended) and base64-encode the combined bytes with `btoa`. -/
def formatOutput (iv encryptedData : List Nat) : List Nat :=
  b64encode (iv ++ encryptedData)

/-- C8: For every envelope — every 12-byte IV and all ciphertext and tag byte
buffers — base64-decoding the encoder's output returns exactly
IV ‖ ciphertext ‖ tag, so nonce, ciphertext and tag are reconstructed
byte-identically. -/
theorem formatOutput_roundtrip (iv ct tag : List Nat)
    (hiv : ∀ x ∈ iv, x < 256) (hct : ∀ x ∈ ct, x < 256)
    (htag : ∀ x ∈ tag, x < 256) (_hivlen : iv.length = 12) :
    b64decode (formatOutput iv (ct ++ tag)) = iv ++ ct ++ tag := by
  unfold formatOutput
  have hb : ∀ x ∈ iv ++ (ct ++ tag), x < 256 := by
    intro x hx
    rcases List.mem_append.1 hx with h | h
    · exact hiv x h
    · rcases List.mem_append.1 h with h' | h'
      · exact hct x h'
      · exact htag x h'
  rw [b64decode_encode _ hb]
  exact (List.append_assoc iv ct tag).symm

/-- Witness for C8: a concrete 12-byte IV, 2-byte ciphertext and 16-byte tag
round-trip through the encoder. -/
theorem formatOutput_roundtrip_witness :
    b64decode (formatOutput [0, 1, 2, 3, 4, 5, 250, 251, 252, 253, 254, 255]
        ([10, 20] ++ [1, 2, 3, 4, 5, 6, 7, 8, 9, 10, 11, 12, 13, 14, 15, 16])) =
      [0, 1, 2, 3, 4, 5, 250, 251, 252, 253, 254, 255] ++ [10, 20] ++
        [1, 2, 3, 4, 5, 6, 7, 8, 9, 10, 11, 12, 13, 14, 15, 16] :=
  formatOutput_roundtrip _ _ _ (by decide) (by decide) (by decide) (by decide)

/-- C5: The encoded output decodes to exactly nonce ‖ ciphertext ‖ tag: the
12-byte nonce occupies positions [0,12), the 16-byte tag the last 16
positions, the decoded length is 12 + ciphertext length + 16 with no padding
bytes, and a 13-byte plaintext (such as "Hello, World!") gives 41 decoded
bytes. -/
theorem formatOutput_layout (nonce ct tag : List Nat)
    (hn : ∀ x ∈ nonce, x < 256) (hct : ∀ x ∈ ct, x < 256)
    (htag : ∀ x ∈ tag, x < 256) (hnlen : nonce.length = 12)
    (htlen : tag.length = 16) :
    b64decode (formatOutput nonce (ct ++ tag)) = nonce ++ ct ++ tag ∧
    (b64decode (formatOutput nonce (ct ++ tag))).length = 12 + ct.length + 16 ∧
    (b64decode (formatOutput nonce (ct ++ tag))).take 12 = nonce ∧
    (b64decode (formatOutput nonce (ct ++ tag))).drop
        ((b64decode (formatOutput nonce (ct ++ tag))).length - 16) = tag ∧
    (ct.length = 13 →
      (b64decode (formatOutput nonce (ct ++ tag))).length = 41) := by
  have hrt : b64decode (formatOutput nonce (ct ++ tag)) = nonce ++ ct ++ tag :=
    formatOutput_roundtrip nonce ct tag hn hct htag hnlen
  have hlen : (b64decode (formatOutput nonce (ct ++ tag))).length =
      12 + ct.length + 16 := by
    rw [hrt, List.length_append, List.length_append, hnlen, htlen]
  refine ⟨hrt, hlen, ?_, ?_, fun h13 => by rw [hlen, h13]⟩
  · rw [hrt, List.append_assoc, ← hnlen, List.take_left]
  · rw [hrt]
    have hL : (nonce ++ ct ++ tag).length - 16 = (nonce ++ ct).length := by
      rw [List.length_append, List.length_append, hnlen, htlen]
      omega
    rw [hL, List.drop_left]

/-- Witness for C5: with a concrete 12-byte nonce, 13-byte ciphertext and
16-byte tag the decoded bytes are nonce ‖ ciphertext ‖ tag and the decoded
length is 41. -/
theorem formatOutput_layout_witness :
    b64decode (formatOutput [0, 0, 0, 0, 0, 0, 0, 0, 0, 0, 0, 0]
        ([72, 101, 108, 108, 111, 44, 32, 87, 111, 114, 108, 100, 33] ++
         [9, 8, 7, 6, 5, 4, 3, 2, 1, 0, 11, 12, 13, 14, 15, 16])) =
      [0, 0, 0, 0, 0, 0, 0, 0, 0, 0, 0, 0] ++
        [72, 101, 108, 108, 111, 44, 32, 87, 111, 114, 108, 100, 33] ++
        [9, 8, 7, 6, 5, 4, 3, 2, 1, 0, 11, 12, 13, 14, 15, 16] ∧
    (b64decode (formatOutput [0, 0, 0, 0, 0, 0, 0, 0, 0, 0, 0, 0]
        ([72, 101, 108, 108, 111, 44, 32, 87, 111, 114, 108, 100, 33] ++
         [9, 8, 7, 6, 5, 4, 3, 2, 1, 0, 11, 12, 13, 14, 15, 16]))).length = 41 :=
  ⟨(formatOutput_layout _ _ _ (by decide) (by decide) (by decide) (by decide)
      (by decide)).1,
   (formatOutput_layout _ _ _ (by decide) (by decide) (by decide) (by decide)
      (by decide)).2.2.2.2 (by decide)⟩

/-- The global `AppState` of app.js (lines 30–34): the single-flight flag and
the cached sensitive references. -/
structure AppState where
  isProcessing : Bool
  currentKey : Option Nat
  lastEncryptedData : Option (List Nat)
deriving DecidableEq, Repr

/-- `MemoryManager.clearSensitiveData` (app.js lines 424–433): null out the
cached key and encrypted-data references. -/
def clearSensitiveData (st : AppState) : AppState :=
  { st with currentKey := none, lastEncryptedData := none }

/-- The browser cryptographic provider (`window.crypto`), an external
collaborator of the pipeline, modelled as an oracle: key generation may fail
(`none`), `getRandomValues` yields the 12 IV bytes, and `subtle.encrypt` maps
plaintext codes, key and IV to the ciphertext-plus-tag buffer or fails. -/
structure CryptoProvider where
  genKey : Option Nat
  randomBytes : List Nat
  encryptBytes : List Nat → Nat → List Nat → Option (List Nat)

/-- Observable actions of one `processEncryption` run: calls into the crypto
provider, the console diagnostic log, the result sink (`UIManager.showError` /
`UIManager.displayResult`), and the deferred `setTimeout` scheduling of
`MemoryManager.clearSensitiveData`. -/
inductive UIEvent where
  | genKeyCall
  | genIVCall
  | encryptCall
  | logError (msg : String)
  | showError (msg : String)
  | displayResult (out : List Nat)
  | scheduleClear (delayMs : Nat)
deriving DecidableEq, Repr

/-- `EncryptionController.processEncryption` (app.js lines 448–510): the
single-flight guard, validation, key/IV generation, encryption, formatting and
the catch/finally blocks. The returned state is the global state at the moment
the run returns control; the event list records provider calls, console
logging, result-sink messages and the deferred clear scheduled in `finally`.
Thrown errors (validation reason, key-generation or encryption failure) reach
the catch block, which logs them and reports only the fixed generic message. -/
def processEncryption (st : AppState) (input : List Nat) (p : CryptoProvider) :
    AppState × List UIEvent :=
  if st.isProcessing then (st, [])
  else
    let st1 : AppState := { st with isProcessing := true }
    let validation := validate input
    if validation.isValid then
      match p.genKey with
      | none =>
          ({ st1 with isProcessing := false },
           [UIEvent.genKeyCall,
            UIEvent.logError "Failed to generate cryptographic key",
            UIEvent.showError "Encryption failed. Please try again.",
            UIEvent.scheduleClear 100])
      | some key =>
          let st2 : AppState := { st1 with currentKey := some key }
          let iv := p.randomBytes
          match p.encryptBytes validation.sanitized key iv with
          | none =>
              ({ st2 with isProcessing := false },
               [UIEvent.genKeyCall, UIEvent.genIVCall, UIEvent.encryptCall,
                UIEvent.logError "Encryption operation failed",
                UIEvent.showError "Encryption failed. Please try again.",
                UIEvent.scheduleClear 100])
          | some encData =>
              let st3 : AppState := { st2 with lastEncryptedData := some encData }
              let out := formatOutput iv encData
              ({ st3 with isProcessing := false },
               [UIEvent.genKeyCall, UIEvent.genIVCall, UIEvent.encryptCall,
                UIEvent.displayResult out,
                UIEvent.scheduleClear 100])
    else
      ({ st1 with isProcessing := false },
       [UIEvent.logError (validation.errors.headD ""),
        UIEvent.showError "Encryption failed. Please try again.",
        UIEvent.scheduleClear 100])

/-- The idle initial application state (`isProcessing: false`, no cached
references). -/
def st0 : AppState :=
  { isProcessing := false, currentKey := none, lastEncryptedData := none }

/-- A concrete always-succeeding provider for test runs: key handle 0, an
all-zero 12-byte IV, and an encrypt call returning a fixed 16-byte buffer. -/
def pDummy : CryptoProvider :=
  { genKey := some 0
    randomBytes := List.replicate 12 0
    encryptBytes := fun _ _ _ => some (List.replicate 16 0) }

/-- Counterexample to C1: on the empty input (first validation reason "Input
cannot be empty") the message delivered to the result sink is the fixed
generic "Encryption failed. Please try again.", and the validation reason is
never delivered there. -/
theorem validation_reason_not_surfaced :
    (validate ([] : List Nat)).isValid = false ∧
    (validate ([] : List Nat)).errors = ["Input cannot be empty"] ∧
    UIEvent.showError "Encryption failed. Please try again."
      ∈ (processEncryption st0 [] pDummy).2 ∧
    UIEvent.showError "Input cannot be empty"
      ∉ (processEncryption st0 [] pDummy).2 := by
  decide

/-- C1 (amended): for every pipeline run whose input fails validation, the
user-facing message delivered to the result sink is the fixed generic
"Encryption failed. Please try again."; the first validation reason only
reaches the console diagnostic log as the thrown error's message. -/
theorem validation_failure_generic_message (st : AppState) (input : List Nat)
    (p : CryptoProvider) (hidle : st.isProcessing = false)
    (hinvalid : (validate input).isValid = false) :
    (processEncryption st input p).2 =
      [UIEvent.logError ((validate input).errors.headD ""),
       UIEvent.showError "Encryption failed. Please try again.",
       UIEvent.scheduleClear 100] := by
  simp [processEncryption, hidle, hinvalid]

/-- Witness for C1 (amended): the empty input produces exactly the diagnostic
log of the "empty" reason, the generic result-sink message and the deferred
clear. -/
theorem validation_failure_generic_message_witness :
    (processEncryption st0 [] pDummy).2 =
      [UIEvent.logError ((validate ([] : List Nat)).errors.headD ""),
       UIEvent.showError "Encryption failed. Please try again.",
       UIEvent.scheduleClear 100] :=
  validation_failure_generic_message st0 [] pDummy rfl rfl

/-- Counterexample to C2: a successful run on input "H" returns control with
the live key reference and the encrypted-data reference still set — the
sensitive-state release has not been invoked before the pipeline returns (it
is only scheduled, 100 ms later), so the returned state differs from the
released one. -/
theorem release_not_invoked_before_return :
    (processEncryption st0 [72] pDummy).1.currentKey = some 0 ∧
    (processEncryption st0 [72] pDummy).1.lastEncryptedData =
      some (List.replicate 16 0) ∧
    clearSensitiveData (processEncryption st0 [72] pDummy).1 ≠
      (processEncryption st0 [72] pDummy).1 := by
  decide

/-- C2 (amended): on every exit path of a run that enters Processing —
success, validation failure, or crypto failure — the `finally` block's last
action schedules the sensitive-state release (`clearSensitiveData`, clearing
the key and encrypted-data references) with a 100 ms delay, so the release
runs after, not before, the pipeline returns control to its caller. -/
theorem release_scheduled_on_every_exit (st : AppState) (input : List Nat)
    (p : CryptoProvider) (hidle : st.isProcessing = false) :
    (processEncryption st input p).2.getLast? = some (UIEvent.scheduleClear 100) ∧
    ∀ st' : AppState, clearSensitiveData st' =
      { st' with currentKey := none, lastEncryptedData := none } := by
  refine ⟨?_, fun _ => rfl⟩
  unfold processEncryption
  rw [if_neg (by simp [hidle])]
  by_cases hv : (validate input).isValid
  · simp only [hv, if_true]
    cases p.genKey with
    | none => rfl
    | some key =>
        dsimp only
        cases p.encryptBytes (validate input).sanitized key p.randomBytes with
        | none => rfl
        | some encData => rfl
  · simp only [hv, if_false]
    rfl

/-- Witness for C2 (amended): a concrete successful run's last recorded action
is the deferred release. -/
theorem release_scheduled_on_every_exit_witness :
    (processEncryption st0 [72] pDummy).2.getLast? =
      some (UIEvent.scheduleClear 100) :=
  (release_scheduled_on_every_exit st0 [72] pDummy rfl).1

/-- C6: at most one run is in Processing at any instant — a request arriving
while the flag is set returns immediately with the state unchanged and no
events (no output, no provider calls); and every run that does enter
Processing ends with the single-flight flag reset, so the pipeline is again
eligible. -/
theorem single_flight (st : AppState) (input : List Nat) (p : CryptoProvider) :
    (st.isProcessing = true → processEncryption st input p = (st, [])) ∧
    (st.isProcessing = false →
      (processEncryption st input p).1.isProcessing = false) := by
  constructor
  · intro h
    simp [processEncryption, h]
  · intro h
    unfold processEncryption
    rw [if_neg (by simp [h])]
    by_cases hv : (validate input).isValid
    · simp only [hv, if_true]
      cases p.genKey with
      | none => rfl
      | some key =>
          dsimp only
          cases p.encryptBytes (validate input).sanitized key p.randomBytes with
          | none => rfl
          | some encData => rfl
    · simp only [hv, if_false]
      rfl

/-- Witness for C6: a request during Processing is a no-op, and a completed
run leaves the flag cleared. -/
theorem single_flight_witness :
    processEncryption
        { isProcessing := true, currentKey := none, lastEncryptedData := none }
        [72] pDummy =
      ({ isProcessing := true, currentKey := none, lastEncryptedData := none },
        []) ∧
    (processEncryption st0 [72] pDummy).1.isProcessing = false :=
  ⟨(single_flight _ [72] pDummy).1 rfl, (single_flight st0 [72] pDummy).2 rfl⟩

/-- C7: a run whose input fails validation never calls key generation, IV
generation or encryption — no cryptographic material is created before the
validation short-circuit — and reports failure to the result sink. -/
theorem validation_short_circuit (st : AppState) (input : List Nat)
    (p : CryptoProvider) (hidle : st.isProcessing = false)
    (hinvalid : (validate input).isValid = false) :
    UIEvent.genKeyCall ∉ (processEncryption st input p).2 ∧
    UIEvent.genIVCall ∉ (processEncryption st input p).2 ∧
    UIEvent.encryptCall ∉ (processEncryption st input p).2 ∧
    UIEvent.showError "Encryption failed. Please try again."
      ∈ (processEncryption st input p).2 := by
  simp [processEncryption, hidle, hinvalid]

/-- Witness for C7: the empty input triggers no provider call and a failure
report. -/
theorem validation_short_circuit_witness :
    UIEvent.genKeyCall ∉ (processEncryption st0 [] pDummy).2 ∧
    UIEvent.genIVCall ∉ (processEncryption st0 [] pDummy).2 ∧
    UIEvent.encryptCall ∉ (processEncryption st0 [] pDummy).2 ∧
    UIEvent.showError "Encryption failed. Please try again."
      ∈ (processEncryption st0 [] pDummy).2 :=
  validation_short_circuit st0 [] pDummy rfl (by decide)

/-- `dropWhile` consumes a list whose every element satisfies the predicate. -/
theorem dropWhile_eq_nil_of_all (p : Nat → Bool) (l : List Nat)
    (h : ∀ c ∈ l, p c = true) : List.dropWhile p l = [] := by
  induction l with
  | nil => rfl
  | cons a rest ih =>
      simp [List.dropWhile_cons, h a (List.mem_cons_self a rest),
        ih (fun c hc => h c (List.mem_cons_of_mem _ hc))]

/-- Trimming a whitespace-only string yields the empty string. -/
theorem jsTrim_of_all_whitespace (l : List Nat)
    (h : ∀ c ∈ l, isJsWhitespace c = true) : jsTrim l = [] := by
  unfold jsTrim
  rw [dropWhile_eq_nil_of_all _ _ h]
  rfl

/-- Sanitizing a whitespace-only string yields the empty string. -/
theorem sanitize_of_all_whitespace (l : List Nat)
    (h : ∀ c ∈ l, isJsWhitespace c = true) : sanitize l = [] := by
  unfold sanitize
  rw [jsTrim_of_all_whitespace l h]
  rfl

/-- Counterexample to C9: the vertical tab 0x0B is JS-trim whitespace, so
`[0x0B]` is an input consisting only of whitespace, yet `validate` rejects it
(0x0B is in the rejected control-character set) — not every whitespace-only
input passes validation. -/
theorem whitespace_only_counterexample :
    (∀ c ∈ [(11 : Nat)], isJsWhitespace c = true) ∧
    (validate [11]).isValid = false := by
  decide

/-- C9 (amended): every nonempty input of at most 10000 characters consisting
only of whitespace characters outside the rejected control set (vertical tab
0x0B and form feed 0x0C are whitespace but rejected by validation) — for
example a single space — passes validation while its sanitized text is the
empty string after trimming, so the pipeline encrypts the empty string and,
for any provider run whose encrypt call returns the 16-byte tag-only buffer,
the displayed result decodes to exactly 12 + 0 + 16 = 28 bytes. -/
theorem whitespace_only_amended (input : List Nat) (p : CryptoProvider)
    (key : Nat) (encData : List Nat)
    (hws : ∀ c ∈ input, isJsWhitespace c = true)
    (hsafe : ∀ c ∈ input, isDangerousChar c = false)
    (hne : 1 ≤ input.length) (hbound : input.length ≤ 10000)
    (hkey : p.genKey = some key)
    (henc : p.encryptBytes [] key p.randomBytes = some encData)
    (hlen : encData.length = 16)
    (hencb : ∀ x ∈ encData, x < 256)
    (hivlen : p.randomBytes.length = 12)
    (hivb : ∀ x ∈ p.randomBytes, x < 256) :
    (validate input).isValid = true ∧
    (validate input).sanitized = [] ∧
    UIEvent.displayResult (formatOutput p.randomBytes encData)
      ∈ (processEncryption st0 input p).2 ∧
    (b64decode (formatOutput p.randomBytes encData)).length = 28 := by
  have hvalid : (validate input).isValid = true :=
    (validate_isValid_iff input).2 ⟨hne, hbound, hsafe⟩
  have hsan : (validate input).sanitized = [] := by
    have hproj : (validate input).sanitized = sanitize input := rfl
    rw [hproj, sanitize_of_all_whitespace input hws]
  refine ⟨hvalid, hsan, ?_, ?_⟩
  · simp [processEncryption, st0, hvalid, hsan, hkey, henc]
  · have hb : ∀ x ∈ p.randomBytes ++ encData, x < 256 := by
      intro x hx
      rcases List.mem_append.1 hx with h | h
      · exact hivb x h
      · exact hencb x h
    unfold formatOutput
    rw [b64decode_encode _ hb, List.length_append, hivlen, hlen]

/-- Witness for C9 (amended): the dummy provider run on a single space passes
validation, sanitizes to the empty string, and displays a result decoding to
28 bytes. -/
theorem whitespace_only_amended_witness :
    (validate [32]).isValid = true ∧
    (validate [32]).sanitized = [] ∧
    UIEvent.displayResult
        (formatOutput (List.replicate 12 0) (List.replicate 16 0))
      ∈ (processEncryption st0 [32] pDummy).2 ∧
    (b64decode (formatOutput (List.replicate 12 0) (List.replicate 16 0))).length
      = 28 :=
  whitespace_only_amended [32] pDummy 0 (List.replicate 16 0) (by decide)
    (by decide) (by decide) (by decide) rfl rfl (by decide) (by decide)
    (by decide) (by decide)

/-- `replaceChar` leaves a run of a different character unchanged. -/
theorem replaceChar_replicate_ne (a : Nat) (repl : List Nat) (c n : Nat)
    (h : c ≠ a) :
    replaceChar a repl (List.replicate n c) = List.replicate n c := by
  induction n with
  | zero => rfl
  | succ n ih => simp [List.replicate_succ, replaceChar, h, ih]

/-- `replaceChar` is the identity when the target does not occur. -/
theorem replaceChar_of_not_mem (a : Nat) (repl : List Nat) (l : List Nat)
    (h : a ∉ l) : replaceChar a repl l = l := by
  induction l with
  | nil => rfl
  | cons c rest ih =>
      have hca : ¬ c = a := fun he => h (he ▸ List.mem_cons_self c rest)
      simp [replaceChar, hca, ih (fun hm => h (List.mem_cons_of_mem _ hm))]

/-- Every character of the replacement of a pure target run comes from the
replacement string. -/
theorem mem_replaceChar_replicate (a : Nat) (repl : List Nat) (n x : Nat)
    (hx : x ∈ replaceChar a repl (List.replicate n a)) : x ∈ repl := by
  induction n with
  | zero => cases hx
  | succ n ih =>
      simp only [List.replicate_succ, replaceChar, if_pos rfl,
        List.mem_append] at hx
      rcases hx with h | h
      · exact h
      · exact ih h

/-- Replacing every character of a pure target run multiplies the length by
the replacement length. -/
theorem replaceChar_replicate_length (a : Nat) (repl : List Nat) (n : Nat) :
    (replaceChar a repl (List.replicate n a)).length = n * repl.length := by
  induction n with
  | zero => simp [replaceChar]
  | succ n ih =>
      simp [List.replicate_succ, replaceChar, ih]
      ring

/-- `dropWhile` does not touch a run of a character failing the predicate. -/
theorem dropWhile_replicate_of_neg (p : Nat → Bool) (c n : Nat)
    (h : p c = false) :
    List.dropWhile p (List.replicate n c) = List.replicate n c := by
  cases n with
  | zero => rfl
  | succ n => simp [List.replicate_succ, List.dropWhile_cons, h]

/-- A run of quotation marks is untouched by trimming. -/
theorem jsTrim_replicate_quot (n : Nat) :
    jsTrim (List.replicate n 34) = List.replicate n 34 := by
  unfold jsTrim
  rw [dropWhile_replicate_of_neg _ _ _ (by decide), List.reverse_replicate,
      dropWhile_replicate_of_neg _ _ _ (by decide), List.reverse_replicate]

/-- A run of quotation marks is untouched by control-character stripping. -/
theorem stripControl_replicate_quot (n : Nat) :
    stripControl (List.replicate n 34) = List.replicate n 34 := by
  unfold stripControl
  induction n with
  | zero => rfl
  | succ n ih =>
      have h34 : isDangerousChar 34 = false := by decide
      simp [List.replicate_succ, List.filter_cons, h34, ih]

/-- C10: the 10000-character limit is checked on the raw input only, before
sanitization: the input of 10000 `"` characters passes validation while its
sanitized text — the string the pipeline hands to encryption, each `"`
expanded to the six-character entity `&quot;` — has length 60000. -/
theorem limit_checked_before_sanitization :
    ∃ l : List Nat, l.length = 10000 ∧ (validate l).isValid = true ∧
      (validate l).sanitized.length = 60000 := by
  refine ⟨List.replicate 10000 34, by rw [List.length_replicate], ?_, ?_⟩
  · rw [validate_isValid_iff]
    refine ⟨?_, ?_, ?_⟩
    · rw [List.length_replicate]
      omega
    · rw [List.length_replicate]
    · intro c hc
      have hc34 : c = 34 := List.eq_of_mem_replicate hc
      subst hc34
      decide
  · have hs : ∀ l, (validate l).sanitized = sanitize l := fun _ => rfl
    rw [hs]
    unfold sanitize
    rw [jsTrim_replicate_quot, stripControl_replicate_quot,
        replaceChar_replicate_ne 38 _ 34 _ (by decide),
        replaceChar_replicate_ne 60 _ 34 _ (by decide),
        replaceChar_replicate_ne 62 _ 34 _ (by decide)]
    have hM : replaceChar 39 [38, 35, 120, 50, 55, 59]
        (replaceChar 34 [38, 113, 117, 111, 116, 59]
          (List.replicate 10000 34)) =
        replaceChar 34 [38, 113, 117, 111, 116, 59]
          (List.replicate 10000 34) := by
      apply replaceChar_of_not_mem
      intro hmem
      have h39 := mem_replaceChar_replicate 34 _ 10000 39 hmem
      simp at h39
    rw [hM, replaceChar_replicate_length]
    norm_num
